import Mathlib

/-!
Shallow embedding of the coupling layer of `src/src/libcadet/model/ModelSystemImpl.cpp`
(class `cadet::model::ModelSystem`), together with theorems settling the claims
about its specification.  Machine doubles are embedded as rationals (`ℚ`), the
`unsigned int`/`int` values as `Nat`/`Int`, and functions that throw
`InvalidParameterException` as `Except String`-valued functions.
-/

attribute [local semireducible] Rat.add Rat.mul Rat.inv Rat.sub

namespace Cadet

/-- Embedding of the interface data of `cadet::IUnitOperation` that the coupling
layer consumes: unit operation id, component count, inlet/outlet flags and the
accumulation flag. -/
structure UnitModel where
  unitOperationId : Nat
  numComponents : Nat
  hasInlet : Bool
  hasOutlet : Bool
  canAccumulate : Bool
  deriving DecidableEq, Repr

/-- Loop of the anonymous-namespace helper `totalErrorIndicatorFromLocal`
(ModelSystemImpl.cpp lines 109-122): walk the list, return the first negative
code immediately, otherwise accumulate the maximum. -/
def totalErrorGo (acc : Int) : List Int → Int
  | [] => acc
  | e :: rest => if e < 0 then e else totalErrorGo (max acc e) rest

/-- `totalErrorIndicatorFromLocal` (ModelSystemImpl.cpp lines 109-122): fuse a
list of per-unit status codes, starting from `totalError = 0`. -/
def totalErrorIndicatorFromLocal (err : List Int) : Int :=
  totalErrorGo 0 err

/-- `updateErrorIndicator` (ModelSystemImpl.cpp lines 133-138): fuse two status
codes; if either is negative take the minimum, otherwise the maximum. -/
def updateErrorIndicator (curCode nextCode : Int) : Int :=
  if curCode < 0 ∨ nextCode < 0 then min curCode nextCode else max curCode nextCode

/-- Repeated pairwise fusion of a list of status codes with
`updateErrorIndicator`, starting from `0` (the no-error code). -/
def fuseAll (err : List Int) : Int :=
  List.foldl updateErrorIndicator 0 err

/-- `ModelSystem::getModel` (ModelSystemImpl.cpp lines 263-277): bounds-checked
access into the `_models` vector, returning null (`none`) out of range. -/
def getModel (models : List UnitModel) (index : Nat) : Option UnitModel :=
  if h : index < models.length then some (models.get ⟨index, h⟩) else none

/-- `ModelSystem::getUnitOperationModel` (ModelSystemImpl.cpp lines 279-297):
linear search for the first model with the given unit operation id, returning
null (`none`) when no model holds the id. -/
def getUnitOperationModel (models : List UnitModel) (unitOpIdx : Nat) : Option UnitModel :=
  models.find? (fun m => m.unitOperationId == unitOpIdx)

/-- The optional INIT_STATE_Y / INIT_STATE_YDOT arrays read by
`ModelSystem::applyInitialCondition` from the parameter provider (`none` means
the key does not exist). -/
structure InitProvider where
  initStateY : Option (List ℚ)
  initStateYdot : Option (List ℚ)
  deriving DecidableEq

/-- `ModelSystem::applyInitialCondition(IParameterProvider&, double*, double*)`
(ModelSystemImpl.cpp lines 1576-1617).  Returns the state vector, the
derivative vector, and whether initialization was delegated to the per-unit
`applyInitialCondition` calls (`false` exactly when `skipModels` was set). -/
def applyInitialCondition (p : InitProvider) (numDofs : Nat) (y ydot : List ℚ) :
    List ℚ × List ℚ × Bool :=
  let skipModels : Bool :=
    match p.initStateY with
    | some initState => decide (numDofs ≤ initState.length)
    | none => false
  let y1 :=
    match p.initStateY with
    | some initState =>
        if numDofs ≤ initState.length then initState.take numDofs ++ y.drop numDofs else y
    | none => y
  let ydot1 :=
    match p.initStateYdot with
    | some initState =>
        if numDofs ≤ initState.length then initState.take numDofs ++ ydot.drop numDofs else ydot
    | none => ydot
  (y1, ydot1, !skipModels)

/-- Loop part of the SECTION checks in `ModelSystem::configureSwitches`
(ModelSystemImpl.cpp lines 700-761): each switch after the first must have a
SECTION index strictly larger than its predecessor (`prev`), otherwise an
`InvalidParameterException` is thrown. -/
def configureSwitchSectionsGo : Int → List Int → Except String Unit
  | _, [] => .ok ()
  | prev, s :: rest =>
      if s ≤ prev then .error "SECTION index has to be monotonically increasing"
      else configureSwitchSectionsGo s rest

/-- The SECTION checks of `ModelSystem::configureSwitches` (ModelSystemImpl.cpp
lines 700-761): the in-loop monotonicity check followed by the final check that
the first switch has SECTION index 0. -/
def configureSwitchSections (secs : List Int) : Except String Unit :=
  match secs with
  | [] => .ok ()
  | s0 :: rest =>
      match configureSwitchSectionsGo s0 rest with
      | .error e => .error e
      | .ok () =>
          if s0 ≠ 0 then
            .error "First element of SECTION in connections group has to be 0"
          else .ok ()

instance : Inhabited UnitModel :=
  ⟨⟨0, 0, false, false, false⟩⟩

deriving instance DecidableEq for Except

/-- `indexOfUnitOp` (ModelSystemImpl.cpp lines 48-56): first array index whose
model has the given unit operation id, or `models.length` if absent. -/
def indexOfUnitOp (models : List UnitModel) (unitOpIdx : Nat) : Nat :=
  models.findIdx (fun m => m.unitOperationId == unitOpIdx)

/-- `isTerminal` (ModelSystemImpl.cpp lines 65-73): a unit is a terminal node
if it appears as source in no row of the (index-rewritten, 4-column)
connection list. -/
def isTerminal (conn : List (Nat × Nat × Int × Int)) (unitOpIdx : Nat) : Bool :=
  conn.all (fun c => !(c.1 == unitOpIdx))

/-- Per-row validation and id-to-index rewriting of
`ModelSystem::checkConnectionList` (ModelSystemImpl.cpp lines 791-838), in the
order the checks appear in the source.  A row is (source id, destination id,
source component, destination component, flow rate); on success the rewritten
4-column row (local source index, local destination index, components) is
returned. -/
def checkConnectionRow (models : List UnitModel) (row : Int × Int × Int × Int × ℚ) :
    Except String (Nat × Nat × Int × Int) :=
  let compSource := row.2.2.1
  let compDest := row.2.2.2.1
  if row.1 < 0 then
    .error "Source unit operation id has to be at least 0 in connection"
  else if row.2.1 < 0 then
    .error "Destination unit operation id has to be at least 0 in connection"
  else
    let uoSource := indexOfUnitOp models row.1.toNat
    let uoDest := indexOfUnitOp models row.2.1.toNat
    if models.length ≤ uoSource then
      .error "Source unit operation id not found in connection"
    else if models.length ≤ uoDest then
      .error "Destination unit operation id not found in connection"
    else if !(models.getD uoSource default).hasOutlet then
      .error "Source unit operation does not have an outlet"
    else if !(models.getD uoDest default).hasInlet then
      .error "Source unit operation does not have an inlet"
    else if 0 ≤ compSource ∧ ((models.getD uoSource default).numComponents : Int) ≤ compSource then
      .error "Source component index exceeds number of components"
    else if 0 ≤ compDest ∧ ((models.getD uoDest default).numComponents : Int) ≤ compDest then
      .error "Destination component index exceeds number of components"
    else if (compSource < 0 ∧ 0 ≤ compDest) ∨ (0 ≤ compSource ∧ compDest < 0) then
      .error "Only source or destination (not both) are set to connect all components in connection"
    else if compSource < 0 ∧ compDest < 0 ∧
        (models.getD uoSource default).numComponents ≠ (models.getD uoDest default).numComponents then
      .error "Number of components not equal when connecting all components"
    else
      .ok (uoSource, uoDest, compSource, compDest)

/-- The duplicate-connection search of `ModelSystem::checkConnectionList`
(ModelSystemImpl.cpp lines 843-853): scan the previously processed raw rows
for one whose raw source entry equals the current row's rewritten local source
index and whose raw destination entry equals the rewritten local destination
index, and return the raw flow rate appearing first.  (The source compares the
raw unit operation ids `conn[5*j]`, `conn[5*j+1]` against the already
rewritten local indices `uoSource`, `uoDest`.) -/
def findPrevFlowRate (seen : List (Int × Int × Int × Int × ℚ)) (uoSource uoDest : Nat) :
    Option ℚ :=
  (seen.find? (fun r => r.1 == (uoSource : Int) && (uoDest : Int) == r.2.1)).map
    (fun r => r.2.2.2.2)

/-- The row loop of `ModelSystem::checkConnectionList` (ModelSystemImpl.cpp
lines 791-865): validate and rewrite each row, determine its effective flow
rate via `findPrevFlowRate`, and accumulate the per-unit total inflow and
outflow only when no previous matching connection was found. -/
def checkConnectionListGo (models : List UnitModel) :
    List (Int × Int × Int × Int × ℚ) → List (Int × Int × Int × Int × ℚ) →
    List (Nat × Nat × Int × Int) → List ℚ → (Nat → ℚ) → (Nat → ℚ) →
    Except String (List (Nat × Nat × Int × Int) × List ℚ × (Nat → ℚ) × (Nat → ℚ))
  | [], _, connOnly, flowRates, totalIn, totalOut =>
      .ok (connOnly, flowRates, totalIn, totalOut)
  | row :: rest, seen, connOnly, flowRates, totalIn, totalOut =>
      match checkConnectionRow models row with
      | .error e => .error e
      | .ok (uoSource, uoDest, compSource, compDest) =>
          match findPrevFlowRate seen uoSource uoDest with
          | some fr =>
              checkConnectionListGo models rest (seen ++ [row])
                (connOnly ++ [(uoSource, uoDest, compSource, compDest)])
                (flowRates ++ [fr]) totalIn totalOut
          | none =>
              checkConnectionListGo models rest (seen ++ [row])
                (connOnly ++ [(uoSource, uoDest, compSource, compDest)])
                (flowRates ++ [row.2.2.2.2])
                (fun u => if u = uoDest then totalIn u + row.2.2.2.2 else totalIn u)
                (fun u => if u = uoSource then totalOut u + row.2.2.2.2 else totalOut u)

/-- The tolerance `1e-15` of the flow balance check. -/
def balanceTol : ℚ :=
  1 / 10 ^ 15

/-- Whether unit `i` triggers the flow-balance `InvalidParameterException` of
`ModelSystem::checkConnectionList` (ModelSystemImpl.cpp lines 867-884): the
three skip rules in source order, then the tolerance test guarded by the
accumulation flag. -/
def balanceRaises (models : List UnitModel) (connOnly : List (Nat × Nat × Int × Int))
    (totalIn totalOut : Nat → ℚ) (i : Nat) : Bool :=
  let m := models.getD i default
  if 0 ≤ totalIn i ∧ totalOut i = 0 ∧ m.hasInlet = true ∧ m.hasOutlet = false then false
  else if totalIn i = 0 ∧ 0 ≤ totalOut i ∧ m.hasInlet = false ∧ m.hasOutlet = true then false
  else if 0 ≤ totalOut i ∧ isTerminal connOnly i = true then false
  else
    decide ((balanceTol ≤ |totalIn i - totalOut i| ∨
      balanceTol * |totalOut i| ≤ |totalIn i - totalOut i|) ∧ m.canAccumulate = false)

/-- The flow-balance loop of `ModelSystem::checkConnectionList`
(ModelSystemImpl.cpp lines 867-884): throws if any unit raises. -/
def checkBalance (models : List UnitModel) (connOnly : List (Nat × Nat × Int × Int))
    (totalIn totalOut : Nat → ℚ) : Except String Unit :=
  if (List.range models.length).any (balanceRaises models connOnly totalIn totalOut) then
    .error "Flow rate balance is not closed"
  else .ok ()

/-- `ModelSystem::checkConnectionList` (ModelSystemImpl.cpp lines 787-888):
row validation and rewriting followed by the flow-balance check; returns the
rewritten 4-column connection list and per-row flow rates. -/
def checkConnectionList (models : List UnitModel) (rows : List (Int × Int × Int × Int × ℚ)) :
    Except String (List (Nat × Nat × Int × Int) × List ℚ) :=
  match checkConnectionListGo models rows [] [] [] (fun _ => 0) (fun _ => 0) with
  | .error e => .error e
  | .ok (connOnly, flowRates, totalIn, totalOut) =>
      match checkBalance models connOnly totalIn totalOut with
      | .error e => .error e
      | .ok _ => .ok (connOnly, flowRates)

/-- The (source index, destination index) pair of row `j` of a rewritten
connection list. -/
def pairAt (connOnly : List (Nat × Nat × Int × Int)) (j : Nat) : Nat × Nat :=
  ((connOnly.getD j default).1, (connOnly.getD j default).2.1)

/-- Sensitivity-parameter registration of `ModelSystem::configureSwitches`
(ModelSystemImpl.cpp lines 726-753) for one switch: row 0 always registers its
flow rate under the key (source index, destination index, switch index); a
later row registers its flow-rate slot only when no earlier row has the same
(source, destination) pair in the rewritten connection list. -/
def registerSwitchParams (connOnly : List (Nat × Nat × Int × Int)) (fr : List ℚ)
    (switchIdx : Nat) : List ((Nat × Nat × Nat) × ℚ) :=
  (List.range fr.length).filterMap (fun j =>
    if j = 0 then
      some (((pairAt connOnly 0).1, (pairAt connOnly 0).2, switchIdx), fr.getD 0 0)
    else if (List.range j).any (fun k => pairAt connOnly k = pairAt connOnly j) then none
    else some (((pairAt connOnly j).1, (pairAt connOnly j).2, switchIdx), fr.getD j 0))

/-- Inner loops of the coupling-index-map construction in
`ModelSystem::rebuildInternalDataStructures` (ModelSystemImpl.cpp lines
441-457): walk the models with index `i` and running counter; every
inlet-bearing model inserts one entry per component. -/
def couplingIdxAux : List UnitModel → Nat → Nat → List ((Nat × Nat) × Nat)
  | [], _, _ => []
  | m :: rest, i, counter =>
      if m.hasInlet then
        ((List.range m.numComponents).map (fun comp => ((i, comp), counter + comp)))
          ++ couplingIdxAux rest (i + 1) (counter + m.numComponents)
      else couplingIdxAux rest (i + 1) counter

/-- The coupling index map `_couplingIdxMap` built by
`ModelSystem::rebuildInternalDataStructures` (ModelSystemImpl.cpp lines
441-457), as an association list in insertion order. -/
def couplingIdxMap (models : List UnitModel) : List ((Nat × Nat) × Nat) :=
  couplingIdxAux models 0 0

/-- Modelled from the spec: `ModelSystem::numCouplingDOF` is declared in
ModelSystemImpl.hpp, which is not part of the sources; the spec states the
coupling-block size equals the sum over inlet-bearing units of their component
count. -/
def numCouplingDOF (models : List UnitModel) : Nat :=
  (((models.filter (fun m => m.hasInlet)).map (fun m => m.numComponents))).sum

/-- The switch-index update of
`ModelSystem::notifyDiscontinuousSectionTransition` (ModelSystemImpl.cpp lines
1018-1101) together with the reassembly decision of line 1099: given the
SECTION list of the switches, the current switch index and the section index,
return the new switch index and whether `assembleSuperStructMatrices` is
called. -/
def notifySwitch (switchSectionIndex : List Int) (curSwitchIndex secIdx : Nat) : Nat × Bool :=
  let cur0 := if secIdx = 0 then 0 else curSwitchIndex
  let wrapSec : Int := ((secIdx % switchSectionIndex.length : Nat) : Int)
  let next :=
    if cur0 < switchSectionIndex.length - 1 ∧ switchSectionIndex.getD (cur0 + 1) 0 ≤ wrapSec then
      cur0 + 1
    else if cur0 = switchSectionIndex.length - 1 then
      if switchSectionIndex.getD 0 0 = wrapSec then 0 else cur0
    else cur0
  (next, decide (secIdx = 0 ∨ cur0 ≠ next))

/-- The switch index after consecutive discontinuous section transitions
`0, 1, ..., s`, starting from the constructor value `_curSwitchIndex = 0`. -/
def curSwitchAt (sw : List Int) : Nat → Nat
  | 0 => (notifySwitch sw 0 0).1
  | s + 1 => (notifySwitch sw (curSwitchAt sw s) (s + 1)).1

/-- Following the spec's words (for comparison with the source behaviour): the
index of the last switch whose section index is at most the wrapped section
index `secIdx % sw.length`. -/
def specLastSwitchLE (sw : List Int) (secIdx : Nat) : Option Nat :=
  ((List.range sw.length).filter
    (fun j => sw.getD j 0 ≤ ((secIdx % sw.length : Nat) : Int))).getLast?

/-- Modelled from the spec: `cadet::linalg::SparseMatrix` (linalg/ headers are
not part of the sources) stores (row, column, value) entries added by
`addElement`. -/
abbrev SparseMat :=
  List (Nat × Nat × ℚ)

/-- Modelled from the spec: a call `mat.multiplyAdd(x, res + base)` of
`cadet::linalg::SparseMatrix` adds, for each stored entry, `value * x[col]`
into `res[base + row]`. -/
def multiplyAddAt (mat : SparseMat) (x res : Nat → ℚ) (base : Nat) : Nat → ℚ :=
  mat.foldl (fun acc e => fun j => if j = base + e.1 then acc j + e.2.2 * x e.2.1 else acc j) res

/-- `ModelSystem::residualConnectUnitOps` (ModelSystemImpl.cpp lines
1334-1362), double-typed instantiation: overwrite the coupling block of the
residual with the state (`res[i] = y[i]` for `finalOffset ≤ i < numDofs`),
then add the inbound contributions `jacNF[i] * y[coupling]` into each unit's
slice, then add the outbound contributions `jacFN[i] * y[unit i]` into the
coupling slice. -/
def residualConnectUnitOps (dofOffset : List Nat) (finalOffset numDofs : Nat)
    (jacNF jacFN : List SparseMat) (y res : Nat → ℚ) : Nat → ℚ :=
  let res1 : Nat → ℚ := fun k => if finalOffset ≤ k ∧ k < numDofs then y k else res k
  let res2 := (List.zip dofOffset jacNF).foldl
    (fun acc p => multiplyAddAt p.2 (fun j => y (finalOffset + j)) acc p.1) res1
  (List.zip dofOffset jacFN).foldl
    (fun acc p => multiplyAddAt p.2 (fun j => y (p.1 + j)) acc finalOffset) res2

/-- The error conditions of claim C7 for one connection row, written out as a
predicate (the source encodes the all-components wildcard as any negative
component index): negative or unknown unit id, source without outlet,
destination without inlet, out-of-range non-wildcard component index, exactly
one side wildcard, or both sides wildcard with differing component counts. -/
abbrev specRowRejects (models : List UnitModel) (row : Int × Int × Int × Int × ℚ) : Prop :=
  row.1 < 0 ∨ row.2.1 < 0 ∨
    (∀ m ∈ models, m.unitOperationId ≠ row.1.toNat) ∨
    (∀ m ∈ models, m.unitOperationId ≠ row.2.1.toNat) ∨
    (models.getD (indexOfUnitOp models row.1.toNat) default).hasOutlet = false ∨
    (models.getD (indexOfUnitOp models row.2.1.toNat) default).hasInlet = false ∨
    (0 ≤ row.2.2.1 ∧
      ((models.getD (indexOfUnitOp models row.1.toNat) default).numComponents : Int)
        ≤ row.2.2.1) ∨
    (0 ≤ row.2.2.2.1 ∧
      ((models.getD (indexOfUnitOp models row.2.1.toNat) default).numComponents : Int)
        ≤ row.2.2.2.1) ∨
    (row.2.2.1 < 0 ∧ 0 ≤ row.2.2.2.1) ∨ (0 ≤ row.2.2.1 ∧ row.2.2.2.1 < 0) ∨
    (row.2.2.1 < 0 ∧ row.2.2.2.1 < 0 ∧
      (models.getD (indexOfUnitOp models row.1.toNat) default).numComponents
        ≠ (models.getD (indexOfUnitOp models row.2.1.toNat) default).numComponents)

/-- The total outbound ("bottom macro-row") contribution of all units into
coupling row `k`: for every (offset, outbound matrix) pair, the sum of
`value * y[offset + col]` over the entries whose global row `finalOffset +
row` equals `k`. -/
def outboundContribution (dofOffset : List Nat) (finalOffset : Nat)
    (jacFN : List SparseMat) (y : Nat → ℚ) (k : Nat) : ℚ :=
  ((List.zip dofOffset jacFN).map (fun p =>
    ((p.2.filter (fun e => finalOffset + e.1 == k)).map
      (fun e => e.2.2 * y (p.1 + e.2.1))).sum)).sum

end Cadet

namespace Cadet

theorem totalErrorGo_eq (l : List Int) (acc : Int) :
    totalErrorGo acc l =
      (match l.find? (fun e => decide (e < 0)) with
        | some e => e
        | none => l.foldl max acc) := by
  induction l generalizing acc with
  | nil => rfl
  | cons x rest ih =>
      by_cases hx : x < 0
      · simp [totalErrorGo, hx, List.find?]
      · simp [totalErrorGo, hx, List.find?, ih]

theorem updateErrorIndicator_right_comm (b x y : Int) :
    updateErrorIndicator (updateErrorIndicator b x) y
      = updateErrorIndicator (updateErrorIndicator b y) x := by
  simp only [updateErrorIndicator]
  split_ifs <;> omega

theorem foldl_updateErrorIndicator_perm (l1 l2 : List Int) (hp : l1.Perm l2) :
    ∀ b : Int, l1.foldl updateErrorIndicator b = l2.foldl updateErrorIndicator b := by
  induction hp with
  | nil => intro b; rfl
  | cons x _ ih => intro b; simpa using ih (updateErrorIndicator b x)
  | swap x y l =>
      intro b
      simp [List.foldl, updateErrorIndicator_right_comm]
  | trans _ _ ih1 ih2 => intro b; exact (ih1 b).trans (ih2 b)

theorem foldl_updateErrorIndicator_of_neg (l : List Int) (acc : Int) (h : acc < 0) :
    l.foldl updateErrorIndicator acc = l.foldl min acc := by
  induction l generalizing acc with
  | nil => rfl
  | cons x rest ih =>
      have hcond : acc < 0 ∨ x < 0 := Or.inl h
      simp only [List.foldl, updateErrorIndicator, if_pos hcond]
      exact ih (min acc x) (lt_of_le_of_lt (min_le_left acc x) h)

theorem foldl_updateErrorIndicator_of_nonneg (l : List Int) (acc : Int)
    (h : 0 ≤ acc) (hl : ∀ e ∈ l, 0 ≤ e) :
    l.foldl updateErrorIndicator acc = l.foldl max acc := by
  induction l generalizing acc with
  | nil => rfl
  | cons x rest ih =>
      have hx : 0 ≤ x := hl x (List.mem_cons_self x rest)
      have hcond : ¬(acc < 0 ∨ x < 0) := by omega
      simp only [List.foldl, updateErrorIndicator, if_neg hcond]
      exact ih (max acc x) (le_trans h (le_max_left acc x)) fun e he =>
        hl e (List.mem_cons_of_mem x he)

theorem foldl_updateErrorIndicator_of_exists_neg (l : List Int) (acc : Int)
    (h : 0 ≤ acc) (hl : ∃ e ∈ l, e < 0) :
    l.foldl updateErrorIndicator acc = l.foldl min 0 := by
  induction l generalizing acc with
  | nil => obtain ⟨e, he, _⟩ := hl; exact absurd he (List.not_mem_nil e)
  | cons x rest ih =>
      by_cases hx : x < 0
      · have hcond : acc < 0 ∨ x < 0 := Or.inr hx
        have hmin : min acc x = x := min_eq_right (le_of_lt (lt_of_lt_of_le hx h))
        have hmin0 : min 0 x = x := min_eq_right (le_of_lt hx)
        simp only [List.foldl, updateErrorIndicator, if_pos hcond, hmin, hmin0]
        exact foldl_updateErrorIndicator_of_neg rest x hx
      · have hcond : ¬(acc < 0 ∨ x < 0) := by omega
        have hrest : ∃ e ∈ rest, e < 0 := by
          obtain ⟨e, he, hneg⟩ := hl
          rcases List.mem_cons.mp he with rfl | hmem
          · exact absurd hneg hx
          · exact ⟨e, hmem, hneg⟩
        have hmin0 : min 0 x = 0 := min_eq_left (by omega)
        simp only [List.foldl, updateErrorIndicator, if_neg hcond, hmin0]
        exact ih (max acc x) (le_trans h (le_max_left acc x)) hrest

/-- C1 counterexample: the list-fusion function `totalErrorIndicatorFromLocal`
returns the first negative code, not the most negative one, and its result is
not invariant under permutation of the list: fusing `[0, -1, -5]` yields `-1`
although the most negative code is `-5`, and the permuted list `[0, -5, -1]`
fuses to `-5`. -/
theorem claim1_cex :
    totalErrorIndicatorFromLocal [0, -1, -5] = -1 ∧
    List.foldl min 0 [0, -1, -5] = -5 ∧
    totalErrorIndicatorFromLocal [0, -5, -1] = -5 ∧
    ([0, -1, -5] : List Int).Perm [0, -5, -1] ∧
    (-1 : Int) ≠ -5 := by
  refine ⟨rfl, rfl, rfl, by decide, by decide⟩

/-- C1 (amended): fusing a list of per-unit status codes with the list-fusion
function yields the first negative code in list order if any code is negative,
otherwise the maximum non-negative code; repeated pairwise fusion with
`updateErrorIndicator` is invariant under every permutation of the list, yields
the most negative code (the minimum) when a negative code is present, and
otherwise the maximum non-negative code, where it agrees with the list-fusion
function. -/
theorem claim1_fusion (l l2 : List Int) (hp : l.Perm l2) :
    totalErrorIndicatorFromLocal l =
      (match l.find? (fun e => decide (e < 0)) with
        | some e => e
        | none => l.foldl max 0) ∧
    fuseAll l = fuseAll l2 ∧
    ((∃ e ∈ l, e < 0) → fuseAll l = l.foldl min 0) ∧
    ((∀ e ∈ l, 0 ≤ e) →
      fuseAll l = l.foldl max 0 ∧ totalErrorIndicatorFromLocal l = fuseAll l) := by
  refine ⟨totalErrorGo_eq l 0, foldl_updateErrorIndicator_perm l l2 hp 0, ?_, ?_⟩
  · intro hex
    exact foldl_updateErrorIndicator_of_exists_neg l 0 le_rfl hex
  · intro hall
    have h1 : fuseAll l = l.foldl max 0 :=
      foldl_updateErrorIndicator_of_nonneg l 0 le_rfl hall
    refine ⟨h1, ?_⟩
    have hnone : l.find? (fun e => decide (e < 0)) = none := by
      rw [List.find?_eq_none]
      intro x hx
      simpa using not_lt.mpr (hall x hx)
    rw [totalErrorIndicatorFromLocal, totalErrorGo_eq l 0, hnone, h1]

/-- Witness for C1: instantiating the amended fusion theorem at the concrete
lists `[0, -2, 3]` and `[3, 0, -2]`. -/
theorem claim1_fusion_witness :
    fuseAll [0, -2, 3] = fuseAll [3, 0, -2] ∧
    fuseAll [0, -2, 3] = List.foldl min 0 [0, -2, 3] := by
  have h := claim1_fusion [0, -2, 3] [3, 0, -2] (by decide)
  exact ⟨h.2.1, h.2.2.1 ⟨-2, by decide, by decide⟩⟩

/-- C9: `getModel` returns null for every index at or beyond the number of
registered models and the stored model for every in-range index;
`getUnitOperationModel` returns null exactly when no registered model holds the
requested unit operation id, and otherwise returns a model with that id. -/
theorem claim9_getModel (models : List UnitModel) (i unitOpIdx : Nat) :
    (models.length ≤ i → getModel models i = none) ∧
    (∀ h : i < models.length, getModel models i = some (models.get ⟨i, h⟩)) ∧
    ((∀ m ∈ models, m.unitOperationId ≠ unitOpIdx) →
      getUnitOperationModel models unitOpIdx = none) ∧
    ((∃ m ∈ models, m.unitOperationId = unitOpIdx) →
      ∃ m, getUnitOperationModel models unitOpIdx = some m ∧
        m.unitOperationId = unitOpIdx ∧ m ∈ models) := by
  refine ⟨?_, ?_, ?_, ?_⟩
  · intro h
    exact dif_neg (by omega)
  · intro h
    exact dif_pos h
  · intro h
    rw [getUnitOperationModel, List.find?_eq_none]
    intro m hm
    simpa using h m hm
  · intro h
    have hsome : (models.find? (fun m => m.unitOperationId == unitOpIdx)).isSome := by
      rw [List.find?_isSome]
      obtain ⟨m, hm, hid⟩ := h
      exact ⟨m, hm, by simpa using hid⟩
    obtain ⟨m, hm⟩ := Option.isSome_iff_exists.mp hsome
    refine ⟨m, hm, ?_, List.mem_of_find?_eq_some hm⟩
    simpa using List.find?_some hm

/-- Witness for C9 at a concrete model list: index 5 is out of range, index 0
is in range, id 7 is known and id 9 is unknown. -/
theorem claim9_getModel_witness :
    getModel [UnitModel.mk 7 2 true true false] 5 = none ∧
    (∃ m, getUnitOperationModel [UnitModel.mk 7 2 true true false] 7 = some m ∧
      m.unitOperationId = 7 ∧ m ∈ [UnitModel.mk 7 2 true true false]) ∧
    getUnitOperationModel [UnitModel.mk 7 2 true true false] 9 = none := by
  refine ⟨(claim9_getModel [UnitModel.mk 7 2 true true false] 5 7).1 (by decide),
    (claim9_getModel [UnitModel.mk 7 2 true true false] 5 7).2.2.2
      ⟨UnitModel.mk 7 2 true true false, by decide, rfl⟩,
    (claim9_getModel [UnitModel.mk 7 2 true true false] 5 9).2.2.1 (by decide)⟩

/-- C10: the per-unit initial-condition delegation is skipped if and only if
INIT_STATE_Y exists with at least `numDofs` entries, in which case its first
`numDofs` entries overwrite the state; a shorter INIT_STATE_Y is ignored
entirely; INIT_STATE_YDOT with at least `numDofs` entries overwrites the
derivative vector but has no influence on whether delegation happens. -/
theorem claim10_applyInitialCondition (p : InitProvider) (numDofs : Nat) (y ydot : List ℚ) :
    ((applyInitialCondition p numDofs y ydot).2.2 = false ↔
      ∃ initState, p.initStateY = some initState ∧ numDofs ≤ initState.length) ∧
    (∀ initState, p.initStateY = some initState → numDofs ≤ initState.length →
      (applyInitialCondition p numDofs y ydot).1 = initState.take numDofs ++ y.drop numDofs) ∧
    (∀ initState, p.initStateY = some initState → initState.length < numDofs →
      (applyInitialCondition p numDofs y ydot).1 = y) ∧
    (p.initStateY = none → (applyInitialCondition p numDofs y ydot).1 = y) ∧
    (∀ initState, p.initStateYdot = some initState → numDofs ≤ initState.length →
      (applyInitialCondition p numDofs y ydot).2.1 =
        initState.take numDofs ++ ydot.drop numDofs) ∧
    (∀ q : InitProvider, q.initStateY = p.initStateY →
      (applyInitialCondition q numDofs y ydot).2.2 =
        (applyInitialCondition p numDofs y ydot).2.2) := by
  refine ⟨?_, ?_, ?_, ?_, ?_, ?_⟩
  · cases hY : p.initStateY with
    | none => simp [applyInitialCondition, hY]
    | some initState =>
        simp only [applyInitialCondition, hY, Bool.not_eq_false]
        constructor
        · intro h
          refine ⟨initState, rfl, ?_⟩
          by_contra hlen
          simp [hlen] at h
        · rintro ⟨s, hs, hlen⟩
          cases hs
          simp [hlen]
  · intro initState hY hlen
    simp [applyInitialCondition, hY, hlen]
  · intro initState hY hlen
    simp [applyInitialCondition, hY, Nat.not_le.mpr hlen]
  · intro hY
    simp [applyInitialCondition, hY]
  · intro initState hYdot hlen
    cases hY : p.initStateY with
    | none => simp [applyInitialCondition, hY, hYdot, hlen]
    | some s => by_cases hs : numDofs ≤ s.length <;>
        simp [applyInitialCondition, hY, hYdot, hlen, hs]
  · intro q hq
    cases hY : p.initStateY with
    | none => simp [applyInitialCondition, hY, hq ▸ hY]
    | some s =>
        have hqY : q.initStateY = some s := by rw [hq, hY]
        simp [applyInitialCondition, hY, hqY]

/-- Witness for C10 at concrete data: INIT_STATE_Y of length 3 with
`numDofs = 2` skips the per-unit delegation and overwrites the state; a second
provider differing only in INIT_STATE_YDOT has the same delegation flag. -/
theorem claim10_applyInitialCondition_witness :
    ((applyInitialCondition (InitProvider.mk (some [1, 2, 3]) none) 2 [0, 0] [0, 0]).2.2 = false ↔
      ∃ initState, (InitProvider.mk (some [1, 2, 3]) none).initStateY = some initState ∧
        2 ≤ initState.length) ∧
    (applyInitialCondition (InitProvider.mk (some [1, 2, 3]) none) 2 [0, 0] [0, 0]).1 =
      ([1, 2, 3] : List ℚ).take 2 ++ ([0, 0] : List ℚ).drop 2 ∧
    (applyInitialCondition (InitProvider.mk (some [1, 2, 3]) (some [4, 5])) 2 [0, 0] [0, 0]).2.2 =
      (applyInitialCondition (InitProvider.mk (some [1, 2, 3]) none) 2 [0, 0] [0, 0]).2.2 := by
  have h := claim10_applyInitialCondition (InitProvider.mk (some [1, 2, 3]) none) 2 [0, 0] [0, 0]
  exact ⟨h.1, h.2.1 [1, 2, 3] rfl (by decide),
    h.2.2.2.2.2 (InitProvider.mk (some [1, 2, 3]) (some [4, 5])) rfl⟩

theorem configureSwitchSectionsGo_ok_iff (l : List Int) (prev : Int) :
    configureSwitchSectionsGo prev l = .ok () ↔ List.Chain' (· < ·) (prev :: l) := by
  induction l generalizing prev with
  | nil => simp [configureSwitchSectionsGo]
  | cons s rest ih =>
      by_cases h : s ≤ prev
      · simp [configureSwitchSectionsGo, h, List.chain'_cons, not_lt.mpr h]
      · simp only [configureSwitchSectionsGo, if_neg h, List.chain'_cons]
        rw [ih s]
        simp [not_le.mp h]

/-- C6: for a non-empty switch list, the SECTION checks of `configureSwitches`
accept exactly when the SECTION indices are strictly increasing and the first
one equals 0; otherwise an `InvalidParameterException` is raised. -/
theorem claim6_configureSwitchSections (s0 : Int) (rest : List Int) :
    configureSwitchSections (s0 :: rest) = .ok () ↔
      List.Chain' (· < ·) (s0 :: rest) ∧ s0 = 0 := by
  simp only [configureSwitchSections]
  cases hgo : configureSwitchSectionsGo s0 rest with
  | error e =>
      constructor
      · intro h
        exact absurd h (by simp)
      · rintro ⟨hchain, _⟩
        rw [← configureSwitchSectionsGo_ok_iff rest s0] at hchain
        rw [hgo] at hchain
        exact absurd hchain (by simp)
  | ok u =>
      cases u
      have hchain := (configureSwitchSectionsGo_ok_iff rest s0).mp hgo
      by_cases h0 : s0 = 0
      · subst h0
        simp [hchain]
      · simp [h0, hchain]

/-- Witness for C6: the switch list with SECTION indices [0, 2, 5] is strictly
increasing, starts at 0, and passes the checks; [0, 2, 2] is rejected. -/
theorem claim6_configureSwitchSections_witness :
    configureSwitchSections [0, 2, 5] = .ok () ∧
    configureSwitchSections [0, 2, 2] ≠ .ok () := by
  constructor
  · exact (claim6_configureSwitchSections 0 [2, 5]).mpr
      ⟨List.chain'_cons.mpr ⟨by norm_num, List.chain'_cons.mpr ⟨by norm_num, List.chain'_singleton 5⟩⟩, rfl⟩
  · intro h
    have h2 := (claim6_configureSwitchSections 0 [2, 2]).mp h
    have h3 := (List.chain'_cons.mp (List.chain'_cons.mp h2.1).2).1
    norm_num at h3

/-- C2 (code-bug exhibit): the duplicate-pair detection of
`checkConnectionList` compares raw unit operation ids against rewritten local
indices.  The identical three-unit network source -> through -> sink with two
component rows realizing the pair (source, through) balances (and is accepted)
when the unit ids are 0, 1, 2, but is rejected with a flow-balance error when
the same units carry ids 7, 8, 9, because the pair is then counted once per
component row. -/
theorem claim2_pair_counting_bug :
    checkConnectionList
      [⟨7, 2, false, true, false⟩, ⟨8, 2, true, true, false⟩, ⟨9, 2, true, false, false⟩]
      [(7, 8, 0, 0, 1), (7, 8, 1, 1, 1), (8, 9, -1, -1, 1)]
      = .error "Flow rate balance is not closed" ∧
    checkConnectionList
      [⟨0, 2, false, true, false⟩, ⟨1, 2, true, true, false⟩, ⟨2, 2, true, false, false⟩]
      [(0, 1, 0, 0, 1), (0, 1, 1, 1, 1), (1, 2, -1, -1, 1)]
      = .ok ([(0, 1, 0, 0), (0, 1, 1, 1), (1, 2, -1, -1)], [1, 1, 1]) := by
  exact ⟨by decide, by decide⟩

/-- C8 (code-bug exhibit): with unit ids 5 and 6 (differing from the local
indices 0 and 1), the second component row of the pair keeps its own flow rate
3 instead of being assigned the first row's rate 2; relabelling the ids to the
local indices yields the claimed rates [2, 2].  Moreover, with ids [1, 0] the
id-versus-index comparison produces a false duplicate match, so the parameter
registered for the second pair carries the other pair's flow rate 2 although
the only row for that pair has flow rate 3. -/
theorem claim8_first_flow_rate_bug :
    checkConnectionList [⟨5, 2, false, true, false⟩, ⟨6, 2, true, false, false⟩]
      [(5, 6, 0, 0, 2), (5, 6, 1, 1, 3)]
      = .ok ([(0, 1, 0, 0), (0, 1, 1, 1)], [2, 3]) ∧
    checkConnectionList [⟨0, 2, false, true, false⟩, ⟨1, 2, true, false, false⟩]
      [(0, 1, 0, 0, 2), (0, 1, 1, 1, 3)]
      = .ok ([(0, 1, 0, 0), (0, 1, 1, 1)], [2, 2]) ∧
    checkConnectionList [⟨1, 1, true, true, true⟩, ⟨0, 1, true, true, true⟩]
      [(1, 0, 0, 0, 2), (0, 1, 0, 0, 3)]
      = .ok ([(0, 1, 0, 0), (1, 0, 0, 0)], [2, 2]) ∧
    registerSwitchParams [(0, 1, 0, 0), (1, 0, 0, 0)] [2, 2] 0
      = [((0, 1, 0), 2), ((1, 0, 0), 2)] := by
  exact ⟨by decide, by decide, by decide, by decide⟩

theorem indexOfUnitOp_ge_length_iff (models : List UnitModel) (unitOpIdx : Nat) :
    models.length ≤ indexOfUnitOp models unitOpIdx ↔
      ∀ m ∈ models, m.unitOperationId ≠ unitOpIdx := by
  rw [indexOfUnitOp]
  constructor
  · intro h m hm hid
    have hlt : models.findIdx (fun m => m.unitOperationId == unitOpIdx) < models.length :=
      List.findIdx_lt_length_of_exists ⟨m, hm, by simpa using hid⟩
    omega
  · intro h
    have heq : models.findIdx (fun m => m.unitOperationId == unitOpIdx) = models.length := by
      rw [List.findIdx_eq_length]
      intro m hm
      simpa using h m hm
    omega

/-- C7: per-row validation raises a configuration error exactly when one of
the listed conditions holds (negative or unknown unit id, source without
outlet, destination without inlet, non-wildcard component index at least the
component count, exactly one side wildcard, or both sides wildcard with
differing component counts; the source encodes the all-components wildcard as
any negative component index), and an accepted row is rewritten with the local
unit indices. -/
theorem errCase (e : String) {d : Prop} (hd : d) (target : Except String (Nat × Nat × Int × Int)) :
    ((Except.error e : Except String (Nat × Nat × Int × Int)).isOk = true ↔ ¬d) ∧
    ((Except.error e : Except String (Nat × Nat × Int × Int)).isOk = true →
      (Except.error e : Except String (Nat × Nat × Int × Int)) = target) :=
  ⟨iff_of_false (by simp [Except.isOk, Except.toBool]) (not_not_intro hd),
    fun h => absurd h (by simp [Except.isOk, Except.toBool])⟩

/-- C7: per-row validation accepts (returns `.ok`) exactly when none of the
listed conditions holds (negative or unknown unit id, source without outlet,
destination without inlet, non-wildcard component index at least the unit's
component count, exactly one side wildcard, or both sides wildcard with
differing component counts; the source encodes the all-components wildcard as
any negative component index), and an accepted row is rewritten with the local
unit indices. -/
theorem claim7_checkConnectionRow (models : List UnitModel) (row : Int × Int × Int × Int × ℚ) :
    ((checkConnectionRow models row).isOk = true ↔ ¬specRowRejects models row) ∧
    ((checkConnectionRow models row).isOk = true →
      checkConnectionRow models row =
        .ok (indexOfUnitOp models row.1.toNat, indexOfUnitOp models row.2.1.toNat,
          row.2.2.1, row.2.2.2.1)) := by
  simp only [checkConnectionRow, specRowRejects]
  by_cases h1 : row.1 < 0
  · rw [if_pos h1]
    exact errCase _ (Or.inl h1) _
  rw [if_neg h1]
  by_cases h2 : row.2.1 < 0
  · rw [if_pos h2]
    exact errCase _ (Or.inr (Or.inl h2)) _
  rw [if_neg h2]
  by_cases h3 : models.length ≤ indexOfUnitOp models row.1.toNat
  · rw [if_pos h3]
    exact errCase _ (Or.inr (Or.inr (Or.inl
      ((indexOfUnitOp_ge_length_iff models row.1.toNat).mp h3)))) _
  rw [if_neg h3]
  by_cases h4 : models.length ≤ indexOfUnitOp models row.2.1.toNat
  · rw [if_pos h4]
    exact errCase _ (Or.inr (Or.inr (Or.inr (Or.inl
      ((indexOfUnitOp_ge_length_iff models row.2.1.toNat).mp h4))))) _
  rw [if_neg h4]
  by_cases h5 : (!(models.getD (indexOfUnitOp models row.1.toNat) default).hasOutlet) = true
  · rw [if_pos h5]
    exact errCase _ (Or.inr (Or.inr (Or.inr (Or.inr (Or.inl (by simpa using h5)))))) _
  rw [if_neg h5]
  by_cases h6 : (!(models.getD (indexOfUnitOp models row.2.1.toNat) default).hasInlet) = true
  · rw [if_pos h6]
    exact errCase _ (Or.inr (Or.inr (Or.inr (Or.inr (Or.inr (Or.inl (by simpa using h6))))))) _
  rw [if_neg h6]
  by_cases h7 : 0 ≤ row.2.2.1 ∧
      ((models.getD (indexOfUnitOp models row.1.toNat) default).numComponents : Int) ≤ row.2.2.1
  · rw [if_pos h7]
    exact errCase _ (Or.inr (Or.inr (Or.inr (Or.inr (Or.inr (Or.inr (Or.inl h7))))))) _
  rw [if_neg h7]
  by_cases h8 : 0 ≤ row.2.2.2.1 ∧
      ((models.getD (indexOfUnitOp models row.2.1.toNat) default).numComponents : Int)
        ≤ row.2.2.2.1
  · rw [if_pos h8]
    exact errCase _ (Or.inr (Or.inr (Or.inr (Or.inr (Or.inr (Or.inr (Or.inr (Or.inl h8)))))))) _
  rw [if_neg h8]
  by_cases h9 : (row.2.2.1 < 0 ∧ 0 ≤ row.2.2.2.1) ∨ (0 ≤ row.2.2.1 ∧ row.2.2.2.1 < 0)
  · rw [if_pos h9]
    rcases h9 with h9 | h9
    · exact errCase _ (Or.inr (Or.inr (Or.inr (Or.inr (Or.inr (Or.inr (Or.inr (Or.inr
        (Or.inl h9))))))))) _
    · exact errCase _ (Or.inr (Or.inr (Or.inr (Or.inr (Or.inr (Or.inr (Or.inr (Or.inr
        (Or.inr (Or.inl h9)))))))))) _
  rw [if_neg h9]
  by_cases h10 : row.2.2.1 < 0 ∧ row.2.2.2.1 < 0 ∧
      (models.getD (indexOfUnitOp models row.1.toNat) default).numComponents
        ≠ (models.getD (indexOfUnitOp models row.2.1.toNat) default).numComponents
  · rw [if_pos h10]
    exact errCase _ (Or.inr (Or.inr (Or.inr (Or.inr (Or.inr (Or.inr (Or.inr (Or.inr
      (Or.inr (Or.inr h10)))))))))) _
  rw [if_neg h10]
  constructor
  · refine iff_of_true (by simp [Except.isOk, Except.toBool]) ?_
    rintro (hc | hc | hc | hc | hc | hc | hc | hc | hc | hc | hc)
    · exact h1 hc
    · exact h2 hc
    · exact h3 ((indexOfUnitOp_ge_length_iff models row.1.toNat).mpr hc)
    · exact h4 ((indexOfUnitOp_ge_length_iff models row.2.1.toNat).mpr hc)
    · exact h5 (by simpa using hc)
    · exact h6 (by simpa using hc)
    · exact h7 hc
    · exact h8 hc
    · exact h9 (Or.inl hc)
    · exact h9 (Or.inr hc)
    · exact h10 hc
  · intro _
    rfl

/-- Witness for C7: a valid row between units with ids 3 and 4 is accepted and
rewritten with the local indices (0, 1). -/
theorem claim7_checkConnectionRow_witness :
    (checkConnectionRow [⟨3, 2, false, true, false⟩, ⟨4, 2, true, false, false⟩]
      (3, 4, 0, 1, 1)).isOk = true ∧
    checkConnectionRow [⟨3, 2, false, true, false⟩, ⟨4, 2, true, false, false⟩]
      (3, 4, 0, 1, 1)
      = .ok (indexOfUnitOp [⟨3, 2, false, true, false⟩, ⟨4, 2, true, false, false⟩]
          ((3 : Int)).toNat,
        indexOfUnitOp [⟨3, 2, false, true, false⟩, ⟨4, 2, true, false, false⟩]
          ((4 : Int)).toNat, 0, 1) := by
  have h := claim7_checkConnectionRow
    [⟨3, 2, false, true, false⟩, ⟨4, 2, true, false, false⟩] (3, 4, 0, 1, 1)
  have hok := h.1.mpr (by decide)
  exact ⟨hok, h.2 hok⟩

theorem numCouplingDOF_cons (m : UnitModel) (rest : List UnitModel) :
    numCouplingDOF (m :: rest) =
      if m.hasInlet then m.numComponents + numCouplingDOF rest else numCouplingDOF rest := by
  by_cases h : m.hasInlet <;> simp [numCouplingDOF, List.filter_cons, h]

theorem couplingIdxAux_map_snd (ms : List UnitModel) (i k : Nat) :
    (couplingIdxAux ms i k).map Prod.snd = List.range' k (numCouplingDOF ms) := by
  induction ms generalizing i k with
  | nil => simp [couplingIdxAux, numCouplingDOF]
  | cons m rest ih =>
      rw [numCouplingDOF_cons]
      by_cases h : m.hasInlet
      · simp only [couplingIdxAux, if_pos h, List.map_append, List.map_map, ih]
        have h1 : ((List.range m.numComponents).map
            (Prod.snd ∘ fun comp => ((i, comp), k + comp))) =
            List.range' k m.numComponents := by
          rw [List.range'_eq_map_range]
          exact List.map_congr_left (fun a _ => rfl)
        rw [h1, Nat.add_comm m.numComponents (numCouplingDOF rest)]
        exact (List.range'_append_1 k m.numComponents (numCouplingDOF rest))
      · simp only [couplingIdxAux, if_neg h, ih]

theorem couplingIdxAux_fst_mem (ms : List UnitModel) (i k j c : Nat) :
    (j, c) ∈ (couplingIdxAux ms i k).map Prod.fst ↔
      ∃ d, d < ms.length ∧ j = i + d ∧ (ms.getD d default).hasInlet = true ∧
        c < (ms.getD d default).numComponents := by
  induction ms generalizing i k with
  | nil => simp [couplingIdxAux]
  | cons m rest ih =>
      by_cases h : m.hasInlet
      · simp only [couplingIdxAux, if_pos h, List.map_append, List.mem_append, List.map_map,
          List.mem_map, Function.comp_def, List.mem_range, Prod.mk.injEq]
        constructor
        · rintro (⟨comp, hcomp, rfl, rfl⟩ | hrest)
          · refine ⟨0, by simp, by omega, by simpa using h, by simpa using hcomp⟩
          · obtain ⟨d, hd, hj, hin, hc⟩ := (ih (i + 1) (k + m.numComponents)).mp
              (by simpa [List.mem_map] using hrest)
            exact ⟨d + 1, by simpa using Nat.succ_lt_succ hd, by omega,
              by simpa using hin, by simpa using hc⟩
        · rintro ⟨d, hd, hj, hin, hc⟩
          cases d with
          | zero =>
              left
              simp only [List.getD_cons_zero] at hin hc
              exact ⟨c, hc, by omega, rfl⟩
          | succ d =>
              right
              have := (ih (i + 1) (k + m.numComponents)).mpr
                ⟨d, by simpa using hd, by omega, by simpa using hin, by simpa using hc⟩
              simpa [List.mem_map] using this
      · simp only [couplingIdxAux, if_neg h]
        rw [ih]
        constructor
        · rintro ⟨d, hd, hj, hin, hc⟩
          exact ⟨d + 1, by simpa using Nat.succ_lt_succ hd, by omega,
            by simpa using hin, by simpa using hc⟩
        · rintro ⟨d, hd, hj, hin, hc⟩
          cases d with
          | zero =>
              simp only [List.getD_cons_zero] at hin
              exact absurd hin (by simp [h])
          | succ d =>
              exact ⟨d, by simpa using hd, by omega, by simpa using hin, by simpa using hc⟩

theorem couplingIdxAux_fst_nodup (ms : List UnitModel) (i k : Nat) :
    ((couplingIdxAux ms i k).map Prod.fst).Nodup := by
  induction ms generalizing i k with
  | nil => simp [couplingIdxAux]
  | cons m rest ih =>
      by_cases h : m.hasInlet
      · simp only [couplingIdxAux, if_pos h, List.map_append, List.map_map]
        refine List.Nodup.append ?_ (ih (i + 1) (k + m.numComponents)) ?_
        · have heq : ((List.range m.numComponents).map
              (Prod.fst ∘ fun comp => ((i, comp), k + comp))) =
              (List.range m.numComponents).map (fun comp => (i, comp)) :=
            List.map_congr_left (fun a _ => rfl)
          rw [heq]
          exact (List.nodup_range m.numComponents).map
            (fun a b hab => by simpa using congrArg Prod.snd hab)
        · intro p hp hp2
          simp only [List.mem_map, Function.comp_def, List.mem_range] at hp
          obtain ⟨comp, _, rfl⟩ := hp
          rw [couplingIdxAux_fst_mem] at hp2
          obtain ⟨d, _, hj, _, _⟩ := hp2
          omega
      · simp only [couplingIdxAux, if_neg h]
        exact ih (i + 1) k

/-- C5: after rebuilding the internal data structures, the coupling index map
assigns, in insertion order, exactly the values 0, 1, ..., N-1 (so it is a
bijection onto a contiguous range starting at 0), its keys are exactly the
pairs (inlet-bearing unit index, component index) with no duplicates, and the
number N of coupling DOFs equals the sum of the component counts of all
inlet-bearing units; in particular two inlet-bearing units with 3 and 2
components give 5 coupling DOFs. -/
theorem claim5_couplingIdxMap (models : List UnitModel) :
    (couplingIdxMap models).map Prod.snd = List.range (numCouplingDOF models) ∧
    ((couplingIdxMap models).map Prod.fst).Nodup ∧
    (∀ j c : Nat, (j, c) ∈ (couplingIdxMap models).map Prod.fst ↔
      j < models.length ∧ (models.getD j default).hasInlet = true ∧
        c < (models.getD j default).numComponents) ∧
    numCouplingDOF [⟨0, 3, true, true, false⟩, ⟨1, 2, true, false, false⟩] = 5 := by
  refine ⟨?_, couplingIdxAux_fst_nodup models 0 0, ?_, by decide⟩
  · rw [couplingIdxMap, couplingIdxAux_map_snd, List.range_eq_range']
  · intro j c
    rw [couplingIdxMap, couplingIdxAux_fst_mem]
    constructor
    · rintro ⟨d, hd, hj, hin, hc⟩
      have hjd : j = d := by omega
      subst hjd
      exact ⟨hd, hin, hc⟩
    · rintro ⟨hj, hin, hc⟩
      exact ⟨j, hj, by omega, hin, hc⟩


/-- C4 counterexample: with switch SECTION indices [0, 1, 5] and consecutive
discontinuous section transitions 0, 1, 2, 3, the current switch index after
the transition with section index 3 is 1, while the index of the last switch
whose section index is at most 3 mod 3 = 0 is 0. -/
theorem claim4_cex :
    curSwitchAt [0, 1, 5] 3 = 1 ∧ specLastSwitchLE [0, 1, 5] 3 = some 0 ∧ (1 : Nat) ≠ 0 := by
  refine ⟨by decide, by decide, by decide⟩

theorem range_map_getD (m j : Nat) (hj : j < m) :
    ((List.range m).map (Int.ofNat)).getD j 0 = (j : Int) := by
  rw [List.getD_eq_getElem?_getD, List.getElem?_map, List.getElem?_range hj]
  rfl

theorem range_map_length (m : Nat) :
    ((List.range m).map (Int.ofNat)).length = m := by
  simp

theorem notifySwitch_reset (sw : List Int) (cur : Nat) (hne : sw ≠ [])
    (h0 : sw.getD 0 0 = 0) (hchain : List.Chain' (· < ·) sw) :
    (notifySwitch sw cur 0).1 = 0 := by
  match sw, hne with
  | [a], _ =>
      simp [notifySwitch]
  | a :: b :: t, _ =>
      have hab : a < b := (List.chain'_cons.mp hchain).1
      have ha : a = 0 := by simpa using h0
      have hb : ¬(b ≤ 0) := by omega
      simp [notifySwitch, hb]

theorem curSwitchAt_range (m : Nat) (hm : 1 ≤ m) :
    ∀ s, curSwitchAt ((List.range m).map Int.ofNat) s = s % m := by
  intro s
  induction s with
  | zero =>
      have h := notifySwitch_reset ((List.range m).map Int.ofNat) 0
        (by simp; omega) (by rw [range_map_getD m 0 (by omega)]; rfl)
        ?chain
      · simpa [curSwitchAt, Nat.zero_mod] using h
      case chain =>
        rw [List.chain'_map]
        refine List.Pairwise.chain' ?_
        have hp := List.pairwise_lt_range m
        exact hp.imp (fun hab => Int.ofNat_lt.mpr hab)
  | succ s ih =>
      have hc : s % m < m := Nat.mod_lt s hm
      have hs1 : ¬(s + 1 = 0) := Nat.succ_ne_zero s
      rw [curSwitchAt, ih]
      simp only [notifySwitch, if_neg hs1, range_map_length]
      by_cases hlt : s % m < m - 1
      · have hm2 : 2 ≤ m := by omega
        have hnext : (s + 1) % m = s % m + 1 := by
          rw [Nat.add_mod, Nat.mod_eq_of_lt (show 1 < m by omega),
            Nat.mod_eq_of_lt (show s % m + 1 < m by omega)]
        have hgetD : ((List.range m).map Int.ofNat).getD (s % m + 1) 0 = ((s % m + 1 : Nat) : Int) :=
          range_map_getD m (s % m + 1) (by omega)
        rw [if_pos ⟨hlt, by rw [hgetD, hnext]⟩, hnext]
      · have hceq : s % m = m - 1 := by omega
        have hwrap : (s + 1) % m = 0 := by
          by_cases hm1 : m = 1
          · simp [hm1, Nat.mod_one]
          · rw [Nat.add_mod, Nat.mod_eq_of_lt (show 1 < m by omega), hceq,
              (show m - 1 + 1 = m by omega), Nat.mod_self]
        rw [if_neg (fun hand => hlt hand.1), if_pos hceq,
          if_pos (by rw [range_map_getD m 0 (by omega), hwrap]), hwrap]

theorem filter_range_le (m w : Nat) (hw : w < m) :
    (List.range m).filter (fun j => decide (j ≤ w)) = List.range (w + 1) := by
  induction m with
  | zero => omega
  | succ m ih =>
      rw [List.range_succ, List.filter_append]
      by_cases hmw : w < m
      · rw [ih hmw]
        have hnil : (List.filter (fun j => decide (j ≤ w)) [m]) = [] := by
          simp only [List.filter_cons, List.filter_nil]
          rw [if_neg (by simp; omega)]
        rw [hnil, List.append_nil]
      · have hwm : w = m := by omega
        subst hwm
        have h1 : (List.range w).filter (fun j => decide (j ≤ w)) = List.range w := by
          rw [List.filter_eq_self]
          intro a ha
          simp only [List.mem_range] at ha
          simp
          omega
        have h2 : (List.filter (fun j => decide (j ≤ w)) [w]) = [w] := by
          simp
        rw [h1, h2, ← List.range_succ]

theorem specLastSwitchLE_range (m : Nat) (hm : 1 ≤ m) (s : Nat) :
    specLastSwitchLE ((List.range m).map Int.ofNat) s = some (s % m) := by
  have hw : s % m < m := Nat.mod_lt s hm
  rw [specLastSwitchLE, range_map_length]
  have hcong : (List.range m).filter
      (fun j => decide (((List.range m).map Int.ofNat).getD j 0 ≤ ((s % m : Nat) : Int)))
      = (List.range m).filter (fun j => decide (j ≤ s % m)) := by
    refine List.filter_congr ?_
    intro j hj
    rw [range_map_getD m j (List.mem_range.mp hj)]
    simp only [decide_eq_decide]
    omega
  rw [hcong, filter_range_le m (s % m) hw, List.range_succ, List.getLast?_concat]

/-- C4 (amended): the transition reassembles the coupling matrices exactly
when the section index is 0 or the switch index changed; at section index 0
the switch index is reset to 0 for every valid switch list (non-empty, first
SECTION index 0, strictly increasing); and when the SECTION indices are
exactly 0, ..., m-1 (gap-free), consecutive transitions 0, 1, ..., s leave the
switch index at s mod m, which coincides with the index of the last switch
whose section index is at most s mod m. -/
theorem claim4_switch (sw : List Int) (cur s m : Nat) (hm : 1 ≤ m) :
    ((notifySwitch sw cur s).2 = true ↔ (s = 0 ∨ (notifySwitch sw cur s).1 ≠ cur)) ∧
    (sw ≠ [] → sw.getD 0 0 = 0 → List.Chain' (· < ·) sw → (notifySwitch sw cur 0).1 = 0) ∧
    curSwitchAt ((List.range m).map Int.ofNat) s = s % m ∧
    specLastSwitchLE ((List.range m).map Int.ofNat) s = some (s % m) := by
  refine ⟨?_, fun hne h0 hchain => notifySwitch_reset sw cur hne h0 hchain,
    curSwitchAt_range m hm s, specLastSwitchLE_range m hm s⟩
  by_cases hs : s = 0
  · subst hs
    simp [notifySwitch]
  · simp only [notifySwitch, if_neg hs]
    simp only [decide_eq_true_eq, hs, false_or]
    exact ne_comm

/-- Witness for C4 at the gap-free switch list [0, 1, 2] with three switches,
current index 1 and section index 2. -/
theorem claim4_switch_witness :
    curSwitchAt ((List.range 3).map Int.ofNat) 2 = 2 % 3 ∧
    specLastSwitchLE ((List.range 3).map Int.ofNat) 2 = some (2 % 3) ∧
    (notifySwitch [0, 1, 2] 1 2).2 = true := by
  have h := claim4_switch [0, 1, 2] 1 2 3 (by decide)
  exact ⟨h.2.2.1, h.2.2.2, h.1.mpr (Or.inr (by decide))⟩

theorem multiplyAddAt_apply (mat : SparseMat) (x res : Nat → ℚ) (base j : Nat) :
    multiplyAddAt mat x res base j =
      res j + ((mat.filter (fun e => base + e.1 == j)).map (fun e => e.2.2 * x e.2.1)).sum := by
  induction mat generalizing res with
  | nil => simp [multiplyAddAt]
  | cons e rest ih =>
      show multiplyAddAt rest x
        (fun j' => if j' = base + e.1 then res j' + e.2.2 * x e.2.1 else res j') base j = _
      rw [ih]
      by_cases hj : base + e.1 = j
      · rw [if_pos hj.symm]
        simp only [List.filter_cons, beq_iff_eq, if_pos hj, List.map_cons, List.sum_cons]
        ring
      · rw [if_neg (fun h => hj h.symm)]
        simp only [List.filter_cons, beq_iff_eq, if_neg hj]

theorem foldl_NF_apply (L : List (Nat × SparseMat)) (y : Nat → ℚ) (finalOffset : Nat)
    (r : Nat → ℚ) (j : Nat) :
    (L.foldl (fun acc p => multiplyAddAt p.2 (fun jj => y (finalOffset + jj)) acc p.1) r) j
      = r j + (L.map (fun p => ((p.2.filter (fun e => p.1 + e.1 == j)).map
          (fun e => e.2.2 * y (finalOffset + e.2.1))).sum)).sum := by
  induction L generalizing r with
  | nil => simp
  | cons p rest ih =>
      simp only [List.foldl_cons, List.map_cons, List.sum_cons]
      rw [ih, multiplyAddAt_apply]
      ring

theorem foldl_FN_apply (L : List (Nat × SparseMat)) (y : Nat → ℚ) (finalOffset : Nat)
    (r : Nat → ℚ) (j : Nat) :
    (L.foldl (fun acc p => multiplyAddAt p.2 (fun jj => y (p.1 + jj)) acc finalOffset) r) j
      = r j + (L.map (fun p => ((p.2.filter (fun e => finalOffset + e.1 == j)).map
          (fun e => e.2.2 * y (p.1 + e.2.1))).sum)).sum := by
  induction L generalizing r with
  | nil => simp
  | cons p rest ih =>
      simp only [List.foldl_cons, List.map_cons, List.sum_cons]
      rw [ih, multiplyAddAt_apply]
      ring

/-- C3: for every state vector `y`, every coupling-block row `k` of the
residual assembled by `residualConnectUnitOps` equals `y k` plus the summed
outbound (bottom macro-row) contributions of all units at row `k` (the
inbound matrices write only into the unit slices below the coupling block),
and the row is exactly zero whenever `y k` equals the negated outbound
contribution, i.e. the flow-weighted combination of the units' outlet values
(the outbound matrices store the negated weights `-flowRate / totalInflow`). -/
theorem claim3_residualConnectUnitOps (dofOffset : List Nat) (finalOffset numDofs : Nat)
    (jacNF jacFN : List SparseMat) (y res : Nat → ℚ) (k : Nat)
    (hk1 : finalOffset ≤ k) (hk2 : k < numDofs)
    (hNF : ∀ p ∈ List.zip dofOffset jacNF, ∀ e ∈ p.2, p.1 + e.1 < finalOffset) :
    residualConnectUnitOps dofOffset finalOffset numDofs jacNF jacFN y res k
      = y k + outboundContribution dofOffset finalOffset jacFN y k ∧
    (y k = -outboundContribution dofOffset finalOffset jacFN y k →
      residualConnectUnitOps dofOffset finalOffset numDofs jacNF jacFN y res k = 0) := by
  have hmain : residualConnectUnitOps dofOffset finalOffset numDofs jacNF jacFN y res k
      = y k + outboundContribution dofOffset finalOffset jacFN y k := by
    simp only [residualConnectUnitOps]
    rw [foldl_FN_apply, foldl_NF_apply, if_pos ⟨hk1, hk2⟩]
    have hzero : ((List.zip dofOffset jacNF).map (fun p =>
        ((p.2.filter (fun e => p.1 + e.1 == k)).map
          (fun e => e.2.2 * y (finalOffset + e.2.1))).sum)).sum = 0 := by
      apply List.sum_eq_zero
      intro v hv
      simp only [List.mem_map] at hv
      obtain ⟨p, hp, rfl⟩ := hv
      have hfil : p.2.filter (fun e => p.1 + e.1 == k) = [] := by
        rw [List.filter_eq_nil_iff]
        intro e he
        have hlt := hNF p hp e he
        simp only [beq_iff_eq]
        omega
      rw [hfil]
      simp
    rw [hzero, outboundContribution]
    ring
  refine ⟨hmain, fun hy => ?_⟩
  rw [hmain, hy]
  ring

/-- Witness for C3: one unit with 2 DOFs (offsets [0], coupling offset 2,
3 total DOFs), inbound entry -1 at (0,0), outbound entry -1 at coupling row 0
against outlet column 1; at the state y = (3, 5, 5) the coupling row 2 of the
residual is y 2 - y 1 = 0. -/
theorem claim3_residualConnectUnitOps_witness :
    residualConnectUnitOps [0] 2 3 [[(0, 0, -1)]] [[(0, 1, -1)]]
      (fun k => if k = 1 then 5 else if k = 2 then 5 else 3) (fun _ => 0) 2 = 0 ∧
    residualConnectUnitOps [0] 2 3 [[(0, 0, -1)]] [[(0, 1, -1)]]
      (fun k => if k = 1 then 5 else if k = 2 then 5 else 3) (fun _ => 0) 2
      = (fun k : Nat => if k = 1 then (5 : ℚ) else if k = 2 then 5 else 3) 2
        + outboundContribution [0] 2 [[(0, 1, -1)]]
            (fun k => if k = 1 then 5 else if k = 2 then 5 else 3) 2 := by
  have h := claim3_residualConnectUnitOps [0] 2 3 [[(0, 0, -1)]] [[(0, 1, -1)]]
    (fun k => if k = 1 then 5 else if k = 2 then 5 else 3) (fun _ => 0) 2
    (by decide) (by decide) (by decide)
  exact ⟨h.2 (by decide), h.1⟩

end Cadet
